import Mathlib

/-!
Verification of the LeArm robotic-arm controller
(`auto_control.py` and `hiwonder_control.py`).

The Python code is shallowly embedded. Python integers are modelled as
`Int` (they are arbitrary precision; the bit operations `x & 0xFF` and
`x >> 8` are `x % 256` (Euclidean remainder) and `Int.fdiv x 256`, which
agree with Python semantics also for negative values). Python floats are
modelled as exact rationals; `int(...)` on them is truncation toward zero.
Dictionaries are association lists in insertion order, with keys that are
either strings or integers.
-/

namespace LeArm

/-- Protocol constant `FRAME_HEADER = 0x55` of both controller classes. -/
def FRAME_HEADER : ℤ := 0x55

/-- Protocol constant `CMD_SERVO_MOVE = 0x03` of both controller classes. -/
def CMD_SERVO_MOVE : ℤ := 0x03

/-- The duration byte source of `build_servo_packet`:
`time_ms = servos_data[0][2] if servos_data else 1000`. -/
def head_time : List (ℤ × ℤ × ℤ) → ℤ
  | m :: _ => m.2.2
  | [] => 1000

/-- Embedding of `build_servo_packet(servos_data)` (identical in
`auto_control.py` lines 41-56 and `hiwonder_control.py` lines 47-73).
Each entry of `servos_data` is a `(servo_id, position, time_ms)` triple;
the Python appends are modelled as list appends, `& 0xFF` as `% 256` and
`>> 8` as `Int.fdiv · 256`. -/
def build_servo_packet (servos_data : List (ℤ × ℤ × ℤ)) : List ℤ :=
  let len : ℤ := (servos_data.length : ℤ) * 3 + 5
  let packet : List ℤ := [FRAME_HEADER, FRAME_HEADER, len, CMD_SERVO_MOVE]
  let packet := packet ++ [(servos_data.length : ℤ)]
  let time_ms := head_time servos_data
  let packet := packet ++ [time_ms % 256, (Int.fdiv time_ms 256) % 256]
  servos_data.foldl
    (fun acc m => acc ++ [m.1, m.2.1 % 256, (Int.fdiv m.2.1 256) % 256]) packet

/-- Python `int(q)` applied to a (rational-modelled) float: truncation
toward zero. -/
def int_trunc (q : ℚ) : ℤ := if 0 ≤ q then ⌊q⌋ else ⌈q⌉

/-- The angle-to-raw-position conversion of `move_to_angles`
(`auto_control.py` line 80) and of `move_servo` / `move_multiple_servos`
(`hiwonder_control.py` lines 109 and 124):
`position = int((angle / 180.0) * 2000) + 500`. -/
def raw_position (angle : ℚ) : ℤ := int_trunc (angle / 180 * 2000) + 500

/-- Modelled from the spec, for comparison with `raw_position` only: the
spec (section 4.1) states `raw = round(angle / 180.0 * 2000) + 500`. -/
def raw_position_spec (angle : ℚ) : ℤ := round (angle / 180 * 2000) + 500

/-- Embedding of `move_to_angles(angles, time_ms)` (`auto_control.py`
lines 73-84) up to the frame it hands to `send_packet`: each
`(servo_id, angle)` pair becomes `(servo_id, raw_position angle, time_ms)`
and the servo packet is built from those triples. -/
def move_to_angles (angles : List (ℤ × ℚ)) (time_ms : ℤ) : List ℤ :=
  build_servo_packet (angles.map (fun p => (p.1, raw_position p.2, time_ms)))

/-- Recursion modelling the copy loop of `send_packet`
(`auto_control.py` lines 61-64, `hiwonder_control.py` lines 79-84):
`for i, byte in enumerate(packet): if i + 1 < len(hid_packet):
hid_packet[i + 1] = byte`. `List.set` out of range is a no-op, matching
the guard. -/
def fill_report : List ℤ → ℕ → List ℤ → List ℤ
  | [], _, buf => buf
  | b :: rest, i, buf =>
      fill_report rest (i + 1) (if i + 1 < buf.length then buf.set (i + 1) b else buf)

/-- Embedding of `send_packet(packet)` up to the 64-byte HID report it
writes: `hid_packet = [0x00] * 64` followed by the copy loop. -/
def send_packet (packet : List ℤ) : List ℤ :=
  fill_report packet 0 (List.replicate 64 0)

/-- Overwriting the front of a buffer with a packet, stopping at the end
of the buffer; the specification of what the copy loop computes. -/
def overwrite : List ℤ → List ℤ → List ℤ
  | [], s => s
  | _ :: _, [] => []
  | b :: rest, _ :: s => b :: overwrite rest s

/-! The position dictionaries of `auto_control.py`. Servo keys are either
strings (positions loaded from the JSON store) or integers (the default
home position and freshly taught positions). -/

/-- A servo key of a position dictionary: a string or an integer. -/
abbrev ServoKey : Type := String ⊕ ℤ

/-- An angle map: association list from servo key to angle, in insertion
order, as a Python dict with unique keys. -/
abbrev AngleMapL : Type := List (ServoKey × ℚ)

/-- Python `d.get(k)` / `d[k]` on an angle map. -/
def lookup_key : AngleMapL → ServoKey → Option ℚ
  | [], _ => none
  | (k, v) :: rest, key => if k = key then some v else lookup_key rest key

/-- Python `d[k] = v` on an angle map: replace the binding when the key is
present, append it otherwise. -/
def set_key : AngleMapL → ServoKey → ℚ → AngleMapL
  | [], k, v => [(k, v)]
  | p :: rest, k, v => if p.1 = k then (k, v) :: rest else p :: set_key rest k v

/-- Name lookup in the saved-positions dictionary. -/
def lookup_name : List (String × AngleMapL) → String → Option AngleMapL
  | [], _ => none
  | (n, m) :: rest, name => if n = name then some m else lookup_name rest name

/-- The default home position of `ButtonPressAutomation`
(`auto_control.py` line 23): `{1: 80, 2: 90, 3: 180, 4: 130, 5: 90, 6: 70}`
with integer keys. -/
def home_position : AngleMapL :=
  [(Sum.inr 1, 80), (Sum.inr 2, 90), (Sum.inr 3, 180),
   (Sum.inr 4, 130), (Sum.inr 5, 90), (Sum.inr 6, 70)]

/-- The press-map computation of `press_button` (`auto_control.py` lines
122-127): copy the position, read `position.get('5')` — `none` models the
`float(None)` `TypeError` — and assign `current_angle - press_depth` to
key `'5'`. -/
def press_position_map (position : AngleMapL) (press_depth : ℚ) :
    Option AngleMapL :=
  match lookup_key position (Sum.inl "5") with
  | none => none
  | some current_angle =>
      some (set_key position (Sum.inl "5") (current_angle - press_depth))

/-- A motion command issued to the device, abstracting
`move_to_angles(map, time_ms)` calls made by the choreography layer. -/
inductive MoveEvent : Type where
  | move (angles : AngleMapL) (time_ms : ℚ)
deriving DecidableEq

/-- Embedding of `press_button(position_name, press_depth, press_time,
return_home)` (`auto_control.py` lines 101-139) as the list of motion
commands it issues paired with its outcome: `Except.ok false` is the
`return False` path for an unknown name, `Except.error ()` is the uncaught
`TypeError` from `float(None)` when key `'5'` is absent (raised after the
hover move), and `Except.ok true` is normal completion (hover move, press
move, optional home move). -/
def press_button (saved : List (String × AngleMapL)) (position_name : String)
    (press_depth press_time : ℚ) (return_home : Bool) :
    List MoveEvent × Except Unit Bool :=
  match lookup_name saved position_name with
  | none => ([], Except.ok false)
  | some position =>
      match press_position_map position press_depth with
      | none => ([MoveEvent.move position 1000], Except.error ())
      | some pressed =>
          ([MoveEvent.move position 1000, MoveEvent.move pressed press_time]
            ++ (if return_home then [MoveEvent.move home_position 1000] else []),
           Except.ok true)

/-- Default `press_depth=6` of the `press_button` signature
(`auto_control.py` line 101). -/
def press_depth_default : ℚ := 6

/-- Default `press_time=500` of the `press_button` signature
(`auto_control.py` line 101). -/
def press_time_default : ℚ := 500

/-- A step of `run_sequence` (`auto_control.py` lines 204-213): either a
bare position name (the `isinstance(step, str)` branch) or a dict step
with optional `'depth'` and `'time'` entries. -/
inductive SequenceStep : Type where
  | simple (name : String)
  | record (button : String) (depth : Option ℚ) (time : Option ℚ)

/-- An operation issued by `run_sequence`: a press (name, depth, hold
time, return-home flag), a sleep (in seconds), or a `go_home` call. -/
inductive SeqEvent : Type where
  | press (name : String) (depth hold : ℚ) (return_home : Bool)
  | sleep (seconds : ℚ)
  | go_home
deriving DecidableEq

/-- The operations one sequence step issues: a bare name calls
`press_button(step, return_home=False)`, so the signature defaults 6 and
500 apply; a dict step calls
`press_button(name, step.get('depth', 10), step.get('time', 500),
return_home=False)`. Each step is followed by `time.sleep(delay / 1000)`. -/
def step_events (step : SequenceStep) (delay : ℚ) : List SeqEvent :=
  match step with
  | SequenceStep.simple name =>
      [SeqEvent.press name press_depth_default press_time_default false,
       SeqEvent.sleep (delay / 1000)]
  | SequenceStep.record button depth time =>
      [SeqEvent.press button (depth.getD 10) (time.getD 500) false,
       SeqEvent.sleep (delay / 1000)]

/-- Embedding of `run_sequence(sequence, repeat, delay, return_home)`
(`auto_control.py` lines 196-220) as the list of operations it issues:
`repeat` passes over the steps, then one optional `go_home`. -/
def run_sequence (steps : List SequenceStep) (rep : ℕ) (delay : ℚ)
    (return_home : Bool) : List SeqEvent :=
  (List.range rep).flatMap (fun _ => steps.flatMap (fun st => step_events st delay))
    ++ (if return_home then [SeqEvent.go_home] else [])

/-! The interactive teaching loop of `teach_position` (`auto_control.py`
lines 141-182). -/

/-- State of the teaching loop: the mutable `current_angles` dict (total
function on servo numbers; the loop touches keys 1..6 only) and
`selected_servo`. -/
structure TeachState : Type where
  angles : ℕ → ℤ
  selected : ℕ

/-- One input to the teaching loop that keeps it running: a servo
selection (`command in '123456'`), `'+'`, or `'-'` (`'s'` and `'q'` exit
the loop and do not change the angles). -/
inductive TeachCmd : Type where
  | select (n : ℕ)
  | inc
  | dec

/-- One iteration of the teaching loop body (`auto_control.py` lines
170-182): `'+'` adds 5 only when the current angle is `< 180`, `'-'`
subtracts 5 only when it is `> 0`; no clamping of the result. -/
def teach_step (s : TeachState) : TeachCmd → TeachState
  | TeachCmd.select n => { s with selected := n }
  | TeachCmd.inc =>
      if s.angles s.selected < 180 then
        { s with angles := fun i => if i = s.selected then s.angles i + 5 else s.angles i }
      else s
  | TeachCmd.dec =>
      if 0 < s.angles s.selected then
        { s with angles := fun i => if i = s.selected then s.angles i - 5 else s.angles i }
      else s

/-- The default home angles (`auto_control.py` line 23) as a function, 0
outside servo numbers 1..6; `teach_position` starts from
`self.home_position.copy()`. -/
def home_angles : ℕ → ℤ := fun i =>
  if i = 1 then 80 else if i = 2 then 90 else if i = 3 then 180
  else if i = 4 then 130 else if i = 5 then 90 else if i = 6 then 70 else 0

/-- Invariant of the teaching map: every angle is in `[0, 180]` and is a
multiple of 5. -/
def TeachInv (s : TeachState) : Prop :=
  ∀ i, 0 ≤ s.angles i ∧ s.angles i ≤ 180 ∧ (5 : ℤ) ∣ s.angles i

/-- The dict `current_angles.copy()` committed by the `'s'` branch of
`teach_position` (`auto_control.py` line 165): integer keys 1..6. -/
def teach_commit_map (s : TeachState) : AngleMapL :=
  (List.range 6).map
    (fun (i : ℕ) => (Sum.inr ((i : ℤ) + 1), ((s.angles (i + 1) : ℤ) : ℚ)))

/-! The persisted position store (`load_positions` / `save_positions`,
`auto_control.py` lines 184-194). -/

/-- JSON object-key serialization: `json.dump` writes integer dict keys
via `str`, and `json.load` returns every object key as a string. -/
def servo_key_str : ServoKey → String
  | Sum.inl s => s
  | Sum.inr z => toString z

/-- What one save/load round trip does to a single angle-map entry:
the servo key comes back as a string, the value is preserved. -/
def store_key_fix (q : ServoKey × ℚ) : ServoKey × ℚ :=
  (Sum.inl (servo_key_str q.1), q.2)

/-- One save/load round trip of the position store through
`json.dump` / `json.load`: names stay strings, every servo key comes back
as a string, numeric values are preserved. -/
def store_round_trip (m : List (String × AngleMapL)) :
    List (String × AngleMapL) :=
  m.map (fun p => (p.1, p.2.map store_key_fix))

/-- The property that every servo key of every position is a string. -/
def all_string_keys (m : List (String × AngleMapL)) : Prop :=
  ∀ p ∈ m, ∀ q ∈ p.2, q.1.isLeft

/-! Helper lemmas about the packet builder. -/

theorem foldl_append_eq {α β : Type} (l : List α) (f : α → List β) :
    ∀ init : List β,
      l.foldl (fun acc x => acc ++ f x) init = init ++ l.flatMap f := by
  induction l with
  | nil => intro init; simp
  | cons a t ih =>
      intro init
      simp only [List.foldl_cons, List.flatMap_cons, ih (init ++ f a),
        List.append_assoc]

theorem build_servo_packet_eq (l : List (ℤ × ℤ × ℤ)) :
    build_servo_packet l =
      [FRAME_HEADER, FRAME_HEADER, (l.length : ℤ) * 3 + 5, CMD_SERVO_MOVE,
        (l.length : ℤ), head_time l % 256, (Int.fdiv (head_time l) 256) % 256]
      ++ l.flatMap (fun m => [m.1, m.2.1 % 256, (Int.fdiv m.2.1 256) % 256]) := by
  unfold build_servo_packet
  rw [foldl_append_eq]
  rfl

theorem byte_pair_eq {t : ℤ} (h0 : 0 ≤ t) (h1 : t < 65536) :
    t % 256 = t % 256 ∧ (Int.fdiv t 256) % 256 = t / 256 := by
  refine ⟨rfl, ?_⟩
  rw [Int.fdiv_eq_ediv _ (by norm_num)]
  omega

theorem flatMap_congr_mem {α β : Type} {l : List α} {f g : α → List β}
    (h : ∀ x ∈ l, f x = g x) : l.flatMap f = l.flatMap g := by
  induction l with
  | nil => rfl
  | cons a t ih =>
      simp only [List.flatMap_cons, h a (by simp),
        ih (fun x hx => h x (by simp [hx]))]

theorem flatMap_triple_length (l : List (ℤ × ℤ × ℤ)) :
    (l.flatMap (fun m => [m.1, m.2.1 % 256, (Int.fdiv m.2.1 256) % 256])).length
      = 3 * l.length := by
  induction l with
  | nil => rfl
  | cons a t ih => simp [List.flatMap_cons, ih]; ring

/-! Helper lemmas about the HID report builder. -/

theorem fill_report_stop (packet : List ℤ) :
    ∀ (i : ℕ) (buf : List ℤ), buf.length ≤ i + 1 →
      fill_report packet i buf = buf := by
  induction packet with
  | nil => intro i buf _; rfl
  | cons b rest ih =>
      intro i buf h
      unfold fill_report
      rw [if_neg (by omega)]
      exact ih (i + 1) buf (by omega)

theorem set_at_append (p : List ℤ) (c : ℤ) (cs : List ℤ) (b : ℤ) :
    (p ++ c :: cs).set p.length b = p ++ b :: cs := by
  induction p with
  | nil => rfl
  | cons a t ih => simp [List.set, ih]

theorem fill_report_run (packet : List ℤ) :
    ∀ (q : List ℤ) (x : ℤ) (suf : List ℤ),
      fill_report packet q.length (q ++ x :: suf) = q ++ x :: overwrite packet suf := by
  induction packet with
  | nil => intro q x suf; rfl
  | cons b rest ih =>
      intro q x suf
      unfold fill_report
      cases suf with
      | nil =>
          rw [if_neg (by simp)]
          exact fill_report_stop rest (q.length + 1) (q ++ [x]) (by simp)
      | cons s0 stail =>
          rw [if_pos (by simp)]
          have hset : (q ++ x :: s0 :: stail).set (q.length + 1) b
              = q ++ x :: b :: stail := by
            have hs := set_at_append (q ++ [x]) s0 stail b
            simp only [List.length_append, List.length_cons, List.length_nil,
              Nat.zero_add, List.append_assoc, List.cons_append,
              List.nil_append] at hs
            exact hs
          rw [hset]
          have := ih (q ++ [x]) b stail
          simpa [List.append_assoc, overwrite] using this

theorem overwrite_replicate (packet : List ℤ) :
    ∀ n : ℕ, overwrite packet (List.replicate n 0)
      = packet.take n ++ List.replicate (n - packet.length) 0 := by
  induction packet with
  | nil => intro n; simp [overwrite]
  | cons b rest ih =>
      intro n
      cases n with
      | zero => simp [overwrite]
      | succ k => simp [List.replicate_succ, overwrite, ih k]

theorem send_packet_eq (packet : List ℤ) :
    send_packet packet
      = 0 :: (packet.take 63 ++ List.replicate (63 - packet.length) 0) := by
  have h : send_packet packet
      = ([] : List ℤ) ++ 0 :: overwrite packet (List.replicate 63 0) :=
    fill_report_run packet [] 0 (List.replicate 63 0)
  rw [h, overwrite_replicate]
  rfl

theorem send_packet_length (packet : List ℤ) :
    (send_packet packet).length = 64 := by
  rw [send_packet_eq]
  simp [List.length_append, List.length_take, List.length_replicate]
  omega

/-! Helper evaluations of the angle conversion (the floor on rationals
does not reduce definitionally, so these are proved by `norm_num`). -/

theorem raw_position_of_nonneg (a : ℚ) (h : 0 ≤ a) :
    raw_position a = ⌊a / 180 * 2000⌋ + 500 := by
  unfold raw_position int_trunc
  rw [if_pos (by positivity)]

theorem raw_position_0 : raw_position 0 = 500 := by
  rw [raw_position_of_nonneg 0 (by norm_num)]; norm_num

theorem raw_position_90 : raw_position 90 = 1500 := by
  rw [raw_position_of_nonneg 90 (by norm_num)]; norm_num

theorem raw_position_180 : raw_position 180 = 2500 := by
  rw [raw_position_of_nonneg 180 (by norm_num)]; norm_num

theorem raw_position_200 : raw_position 200 = 2722 := by
  rw [raw_position_of_nonneg 200 (by norm_num)]
  norm_num

theorem raw_position_small : raw_position (1 / 20) = 500 := by
  rw [raw_position_of_nonneg (1 / 20) (by norm_num)]
  norm_num

theorem raw_position_spec_small : raw_position_spec (1 / 20) = 501 := by
  unfold raw_position_spec
  have h : ((1 : ℚ) / 20 / 180 * 2000) = 5 / 9 := by norm_num
  rw [h, round_eq]
  norm_num

/-- Claim C1: encoding the move list `[(1, 90°, 1000 ms)]` yields exactly
the frame `55 55 08 03 01 E8 03 01 DC 05`, and for every non-empty move
list (with 16-bit durations and positions, as the layout presumes) the
frame is the two headers, `length = N*3 + 5`, command `0x03`, the servo
count, the first move's duration little-endian, then each move's servo id
and little-endian raw position in list order. -/
theorem c1_frame_layout (m : ℤ × ℤ × ℤ) (rest : List (ℤ × ℤ × ℤ))
    (ht0 : 0 ≤ m.2.2) (ht1 : m.2.2 < 65536)
    (hpos : ∀ x ∈ m :: rest, 0 ≤ x.2.1 ∧ x.2.1 < 65536) :
    move_to_angles [(1, 90)] 1000 =
      [0x55, 0x55, 0x08, 0x03, 0x01, 0xE8, 0x03, 0x01, 0xDC, 0x05] ∧
    build_servo_packet (m :: rest) =
      [0x55, 0x55, ((m :: rest).length : ℤ) * 3 + 5, 0x03,
        ((m :: rest).length : ℤ), m.2.2 % 256, m.2.2 / 256]
      ++ (m :: rest).flatMap (fun x => [x.1, x.2.1 % 256, x.2.1 / 256]) := by
  constructor
  · show build_servo_packet [((1 : ℤ), raw_position 90, (1000 : ℤ))] = _
    rw [raw_position_90]
    decide
  · rw [build_servo_packet_eq]
    have hh : head_time (m :: rest) = m.2.2 := rfl
    congr 1
    · rw [hh, (byte_pair_eq ht0 ht1).2]
      rfl
    · exact flatMap_congr_mem
        (fun x hx => by rw [(byte_pair_eq (hpos x hx).1 (hpos x hx).2).2])

/-- Witness for C1 at the single move `(1, 1500, 1000)`. -/
theorem c1_frame_layout_witness :
    move_to_angles [(1, 90)] 1000 =
      [0x55, 0x55, 0x08, 0x03, 0x01, 0xE8, 0x03, 0x01, 0xDC, 0x05] ∧
    build_servo_packet [(1, 1500, 1000)] =
      [0x55, 0x55, 0x08, 0x03, 0x01, 0xE8, 0x03, 0x01, 0xDC, 0x05] := by
  have h := c1_frame_layout (1, 1500, 1000) [] (by decide) (by decide)
    (by decide)
  refine ⟨h.1, ?_⟩
  rw [h.2]
  decide

/-- Counterexample to claim C2: the code truncates toward zero
(`int(...)`) rather than rounding; at angle `0.05` the value
`0.05 / 180 * 2000 = 5/9` truncates to 0 but rounds to 1, so the code
yields raw position 500 while the claimed formula yields 501. -/
theorem c2_round_cex :
    raw_position (1 / 20) = 500 ∧ raw_position_spec (1 / 20) = 501 ∧
    raw_position (1 / 20) ≠ raw_position_spec (1 / 20) := by
  refine ⟨raw_position_small, raw_position_spec_small, ?_⟩
  rw [raw_position_small, raw_position_spec_small]
  decide

/-- Claim C2 as amended: the raw position is `trunc(a / 180 * 2000) + 500`
(truncation toward zero, i.e. floor on the nonnegative domain), it lies in
`[500, 2500]` for every angle in `[0, 180]`, and the endpoints map to 500,
1500 and 2500. -/
theorem c2_raw_position_range (a : ℚ) (h0 : 0 ≤ a) (h1 : a ≤ 180) :
    (500 ≤ raw_position a ∧ raw_position a ≤ 2500) ∧
    raw_position 0 = 500 ∧ raw_position 90 = 1500 ∧ raw_position 180 = 2500 := by
  refine ⟨?_, raw_position_0, raw_position_90, raw_position_180⟩
  have hx0 : (0 : ℚ) ≤ a / 180 * 2000 := by positivity
  have hx1 : a / 180 * 2000 ≤ 2000 := by
    rw [div_mul_eq_mul_div, div_le_iff₀ (by norm_num)]
    linarith
  rw [raw_position_of_nonneg a h0]
  have hf0 : (0 : ℤ) ≤ ⌊a / 180 * 2000⌋ := Int.le_floor.mpr (by exact_mod_cast hx0)
  have hf1 : ⌊a / 180 * 2000⌋ ≤ (2000 : ℤ) := by
    have h2 : ⌊a / 180 * 2000⌋ ≤ ⌊(2000 : ℚ)⌋ := Int.floor_le_floor hx1
    have h3 : ⌊(2000 : ℚ)⌋ = (2000 : ℤ) := by norm_num
    omega
  omega

/-- Witness for C2 at angle 45. -/
theorem c2_raw_position_range_witness :
    (500 ≤ raw_position 45 ∧ raw_position 45 ≤ 2500) ∧
    raw_position 0 = 500 ∧ raw_position 90 = 1500 ∧ raw_position 180 = 2500 :=
  c2_raw_position_range 45 (by norm_num) (by norm_num)

/-- Counterexample to claim C3: the code validates nothing — encoding the
single move with servo id 7 (outside 1..6) and angle 200 (outside 0..180)
raises no error and produces a complete frame (raw position
`int(200 / 180 * 2000) + 500 = 2722 = 0x0AA2`, no clamping). -/
theorem c3_no_validation_cex :
    move_to_angles [(7, 200)] 1000 =
      [0x55, 0x55, 0x08, 0x03, 0x01, 0xE8, 0x03, 0x07, 0xA2, 0x0A] := by
  show build_servo_packet [((7 : ℤ), raw_position 200, (1000 : ℤ))] = _
  rw [raw_position_200]
  decide

/-- Claim C3 as amended: the encoder performs no validation at all — for
every move list, with any servo ids and any angles, it produces a
well-formed frame (correct length, header bytes) and the transport accepts
it into a 64-byte report; there is no `InvalidServoId` or `InvalidAngle`
failure path. -/
theorem c3_no_validation (angles : List (ℤ × ℚ)) (t : ℤ) :
    (move_to_angles angles t).length = 3 * angles.length + 7 ∧
    (move_to_angles angles t).take 2 = [0x55, 0x55] ∧
    (send_packet (move_to_angles angles t)).length = 64 := by
  refine ⟨?_, ?_, send_packet_length _⟩
  · unfold move_to_angles
    rw [build_servo_packet_eq, List.length_append, flatMap_triple_length]
    simp only [List.length_map, List.length_cons, List.length_nil]
    omega
  · unfold move_to_angles
    rw [build_servo_packet_eq]
    rfl

/-! Helper lemmas about angle-map lookup and update. -/

theorem lookup_set_self (m : AngleMapL) (k : ServoKey) (v : ℚ) :
    lookup_key (set_key m k v) k = some v := by
  induction m with
  | nil => simp [set_key, lookup_key]
  | cons p rest ih =>
      by_cases h : p.1 = k <;> simp [set_key, lookup_key, h, ih]

theorem lookup_set_other (m : AngleMapL) (k : ServoKey) (v : ℚ)
    (j : ServoKey) (hj : j ≠ k) :
    lookup_key (set_key m k v) j = lookup_key m j := by
  have hk : k ≠ j := fun h => hj h.symm
  induction m with
  | nil => simp [set_key, lookup_key, hk]
  | cons p rest ih =>
      by_cases h : p.1 = k <;> simp [set_key, lookup_key, h, hk, ih]

/-- Counterexample to claim C4: `press_button` applies no clamping — for
a stored servo-5 angle of 5° and depth 10°, the press map holds −5°, not
the claimed 0°. -/
theorem c4_no_clamp_cex :
    press_position_map [(Sum.inl "5", (5 : ℚ))] 10
      = some [(Sum.inl "5", (-5 : ℚ))] ∧
    press_position_map [(Sum.inl "5", (5 : ℚ))] 10
      ≠ some [(Sum.inl "5", (0 : ℚ))] := by
  have h : press_position_map [(Sum.inl "5", (5 : ℚ))] 10
      = some [(Sum.inl "5", (5 : ℚ) - 10)] := rfl
  rw [h]
  norm_num

/-- Claim C4 as amended: the press angle-map equals the hover map with the
designated servo's (string key `'5'`) angle replaced by `angle − depth`,
with no clamping at 0 and no error — a negative result is passed through
as is, and every other key keeps its hover value. -/
theorem c4_press_map (m : AngleMapL) (a d : ℚ)
    (h : lookup_key m (Sum.inl "5") = some a) :
    (press_position_map m d).bind (fun mp => lookup_key mp (Sum.inl "5"))
      = some (a - d) ∧
    ∀ k, k ≠ Sum.inl "5" →
      (press_position_map m d).map (fun mp => lookup_key mp k)
        = some (lookup_key m k) := by
  unfold press_position_map
  rw [h]
  constructor
  · simp [lookup_set_self]
  · intro k hk
    simp [lookup_set_other m (Sum.inl "5") (a - d) k hk]

/-- Witness for C4: hover angle 90, depth 10, press angle 80. -/
theorem c4_press_map_witness :
    (press_position_map [(Sum.inl "5", (90 : ℚ))] 10).bind
        (fun mp => lookup_key mp (Sum.inl "5")) = some ((90 : ℚ) - 10) :=
  (c4_press_map [(Sum.inl "5", (90 : ℚ))] 90 10 rfl).1

/-- Counterexample to claim C5: a 64-byte frame is not rejected with an
error — the report is built anyway and the 64th frame byte is silently
dropped (only the first 63 bytes appear after the report-id byte). -/
theorem c5_truncation_cex :
    send_packet (List.replicate 64 7) = 0 :: List.replicate 63 7 := by
  rw [send_packet_eq]
  decide

/-- Claim C5 as amended: the report is a fixed 64-byte buffer with byte 0
equal to 0, the frame copied from byte 1 and a zero-padded tail, but a
frame longer than 63 bytes is silently truncated to its first 63 bytes;
there is no `FrameTooLarge` failure path. -/
theorem c5_report_layout (packet : List ℤ) :
    send_packet packet
      = 0 :: (packet.take 63 ++ List.replicate (63 - packet.length) 0) ∧
    (send_packet packet).length = 64 :=
  ⟨send_packet_eq packet, send_packet_length packet⟩

/-- Counterexample to claim C6: a bare position name is executed with
press depth 6 (the `press_button` signature default), not the claimed 10 —
the event issued for step `"a"` carries depth 6 and differs from a
depth-10 press. -/
theorem c6_bare_depth_cex :
    run_sequence [SequenceStep.simple "a"] 1 1000 false
      = [SeqEvent.press "a" 6 500 false, SeqEvent.sleep 1] ∧
    SeqEvent.press "a" 6 500 false ≠ SeqEvent.press "a" 10 500 false := by
  constructor
  · have h : run_sequence [SequenceStep.simple "a"] 1 1000 false
        = [SeqEvent.press "a" press_depth_default press_time_default false,
           SeqEvent.sleep ((1000 : ℚ) / 1000)] := rfl
    rw [h, show ((1000 : ℚ) / 1000) = 1 by norm_num]
    norm_num [press_depth_default, press_time_default]
  · intro h
    have h6 : (6 : ℚ) = 10 := by injection h
    norm_num at h6

/-- Claim C6 as amended: a bare position name is pressed with the
`press_button` defaults — depth 6 degrees and hold 500 ms — while an
explicit record uses its own depth and hold time, with missing fields
defaulting to 10 degrees and 500 ms respectively. -/
theorem c6_step_defaults (name : String) (d t delay : ℚ) :
    run_sequence [SequenceStep.simple name] 1 delay false
      = [SeqEvent.press name press_depth_default press_time_default false,
         SeqEvent.sleep (delay / 1000)] ∧
    press_depth_default = 6 ∧ press_time_default = 500 ∧
    run_sequence [SequenceStep.record name none none] 1 delay false
      = [SeqEvent.press name 10 500 false, SeqEvent.sleep (delay / 1000)] ∧
    run_sequence [SequenceStep.record name (some d) (some t)] 1 delay false
      = [SeqEvent.press name d t false, SeqEvent.sleep (delay / 1000)] :=
  ⟨rfl, rfl, rfl, rfl, rfl⟩

/-- Claim C8: `run_sequence(["a","b"], repeat=2, delay=500)` issues
exactly four presses in order a, b, a, b, each with return-home disabled,
with a sleep after each step and — when return-home is requested — exactly
one `go_home` at the very end and none between steps. -/
theorem c8_sequence_order :
    run_sequence [SequenceStep.simple "a", SequenceStep.simple "b"] 2 500 true
      = [SeqEvent.press "a" 6 500 false, SeqEvent.sleep (1 / 2),
         SeqEvent.press "b" 6 500 false, SeqEvent.sleep (1 / 2),
         SeqEvent.press "a" 6 500 false, SeqEvent.sleep (1 / 2),
         SeqEvent.press "b" 6 500 false, SeqEvent.sleep (1 / 2),
         SeqEvent.go_home] ∧
    run_sequence [SequenceStep.simple "a", SequenceStep.simple "b"] 2 500 false
      = [SeqEvent.press "a" 6 500 false, SeqEvent.sleep (1 / 2),
         SeqEvent.press "b" 6 500 false, SeqEvent.sleep (1 / 2),
         SeqEvent.press "a" 6 500 false, SeqEvent.sleep (1 / 2),
         SeqEvent.press "b" 6 500 false, SeqEvent.sleep (1 / 2)] := by
  have hd : (500 : ℚ) / 1000 = 1 / 2 := by norm_num
  have hp : press_depth_default = 6 ∧ press_time_default = 500 := ⟨rfl, rfl⟩
  constructor
  · have h1 : run_sequence
        [SequenceStep.simple "a", SequenceStep.simple "b"] 2 500 true
        = [SeqEvent.press "a" press_depth_default press_time_default false,
           SeqEvent.sleep ((500 : ℚ) / 1000),
           SeqEvent.press "b" press_depth_default press_time_default false,
           SeqEvent.sleep ((500 : ℚ) / 1000),
           SeqEvent.press "a" press_depth_default press_time_default false,
           SeqEvent.sleep ((500 : ℚ) / 1000),
           SeqEvent.press "b" press_depth_default press_time_default false,
           SeqEvent.sleep ((500 : ℚ) / 1000),
           SeqEvent.go_home] := rfl
    rw [h1, hd, hp.1, hp.2]
  · have h2 : run_sequence
        [SequenceStep.simple "a", SequenceStep.simple "b"] 2 500 false
        = [SeqEvent.press "a" press_depth_default press_time_default false,
           SeqEvent.sleep ((500 : ℚ) / 1000),
           SeqEvent.press "b" press_depth_default press_time_default false,
           SeqEvent.sleep ((500 : ℚ) / 1000),
           SeqEvent.press "a" press_depth_default press_time_default false,
           SeqEvent.sleep ((500 : ℚ) / 1000),
           SeqEvent.press "b" press_depth_default press_time_default false,
           SeqEvent.sleep ((500 : ℚ) / 1000)] := rfl
    rw [h2, hd, hp.1, hp.2]

/-! Helper lemmas about the teaching loop. -/

theorem teach_step_preserves (s : TeachState) (c : TeachCmd)
    (h : TeachInv s) : TeachInv (teach_step s c) := by
  cases c with
  | select n => exact h
  | inc =>
      simp only [teach_step]
      by_cases hg : s.angles s.selected < 180
      · rw [if_pos hg]
        intro i
        obtain ⟨h0, h1, k, hk⟩ := h i
        show 0 ≤ (if i = s.selected then s.angles i + 5 else s.angles i) ∧
          (if i = s.selected then s.angles i + 5 else s.angles i) ≤ 180 ∧
          (5 : ℤ) ∣ (if i = s.selected then s.angles i + 5 else s.angles i)
        by_cases hi : i = s.selected
        · rw [if_pos hi]
          have hlt : s.angles i < 180 := by rw [hi]; exact hg
          exact ⟨by omega, by omega, ⟨k + 1, by omega⟩⟩
        · rw [if_neg hi]
          exact ⟨h0, h1, k, hk⟩
      · rw [if_neg hg]
        exact h
  | dec =>
      simp only [teach_step]
      by_cases hg : 0 < s.angles s.selected
      · rw [if_pos hg]
        intro i
        obtain ⟨h0, h1, k, hk⟩ := h i
        show 0 ≤ (if i = s.selected then s.angles i - 5 else s.angles i) ∧
          (if i = s.selected then s.angles i - 5 else s.angles i) ≤ 180 ∧
          (5 : ℤ) ∣ (if i = s.selected then s.angles i - 5 else s.angles i)
        by_cases hi : i = s.selected
        · rw [if_pos hi]
          have hpos : 0 < s.angles i := by rw [hi]; exact hg
          exact ⟨by omega, by omega, ⟨k - 1, by omega⟩⟩
        · rw [if_neg hi]
          exact ⟨h0, h1, k, hk⟩
      · rw [if_neg hg]
        exact h

theorem teach_home_inv : TeachInv ⟨home_angles, 1⟩ := by
  intro i
  show 0 ≤ home_angles i ∧ home_angles i ≤ 180 ∧ (5 : ℤ) ∣ home_angles i
  unfold home_angles
  split_ifs <;> refine ⟨by norm_num, by norm_num, by decide⟩

/-- Counterexample to claim C9: the result of an increment is not clamped
to `[0, 180]` — starting from angles all equal to 178 (inside `[0, 180]`),
one `'+'` input passes the `< 180` guard and leaves the selected servo at
183, outside `[0, 180]`. -/
theorem c9_no_clamp_cex :
    ((0 : ℤ) ≤ 178 ∧ (178 : ℤ) ≤ 180) ∧
    (teach_step ⟨fun _ => 178, 1⟩ TeachCmd.inc).angles 1 = 183 ∧
    ¬ (teach_step ⟨fun _ => 178, 1⟩ TeachCmd.inc).angles 1 ≤ 180 := by
  refine ⟨⟨by norm_num, by norm_num⟩, ?_, ?_⟩ <;> decide

/-- Claim C9 as amended: `'+'` adds exactly 5 when the current angle is
below 180 and `'-'` subtracts exactly 5 when it is above 0 (a
guard-then-step, not a clamp of the result); the default home position
satisfies the invariant that all angles are multiples of 5 inside
`[0, 180]`, and every teaching state reachable from a state satisfying
that invariant keeps all angles inside `[0, 180]`. -/
theorem c9_teach_invariant :
    (∀ s : TeachState, s.angles s.selected < 180 →
      (teach_step s TeachCmd.inc).angles s.selected
        = s.angles s.selected + 5) ∧
    (∀ s : TeachState, 0 < s.angles s.selected →
      (teach_step s TeachCmd.dec).angles s.selected
        = s.angles s.selected - 5) ∧
    TeachInv ⟨home_angles, 1⟩ ∧
    ∀ (cmds : List TeachCmd) (s : TeachState), TeachInv s →
      TeachInv (cmds.foldl teach_step s) := by
  refine ⟨?_, ?_, teach_home_inv, ?_⟩
  · intro s hs
    simp only [teach_step]
    rw [if_pos hs]
    show (if s.selected = s.selected then s.angles s.selected + 5
      else s.angles s.selected) = _
    rw [if_pos rfl]
  · intro s hs
    simp only [teach_step]
    rw [if_pos hs]
    show (if s.selected = s.selected then s.angles s.selected - 5
      else s.angles s.selected) = _
    rw [if_pos rfl]
  · intro cmds
    induction cmds with
    | nil => intro s h; exact h
    | cons c rest ih => intro s h; exact ih _ (teach_step_preserves s c h)

/-- Witness for C9: two inputs applied to the default home state. -/
theorem c9_teach_invariant_witness :
    TeachInv (List.foldl teach_step ⟨home_angles, 1⟩
      [TeachCmd.inc, TeachCmd.dec]) :=
  c9_teach_invariant.2.2.2 [TeachCmd.inc, TeachCmd.dec] ⟨home_angles, 1⟩
    c9_teach_invariant.2.2.1

/-! Helper lemma for claim C10. -/

theorem lookup_teach_commit (s : TeachState) :
    lookup_key (teach_commit_map s) (Sum.inl "5") = none := rfl

/-- Claim C10: `press_button` reads the designated servo through the
string key `'5'`, so on a position committed by `teach_position` in the
same session (integer keys 1..6) it issues the hover move and then hits
the uncaught `float(None)` `TypeError` (modelled as `Except.error ()`)
instead of returning an error result, while on a position whose servo 5 is
stored under the string key `"5"` (as the JSON store produces) it
completes normally. -/
theorem c10_string_key_requirement (st : TeachState) (name : String)
    (d hold : ℚ) (rh : Bool) (saved : List (String × AngleMapL))
    (pos : AngleMapL) (a : ℚ)
    (hlook : lookup_name saved name = some pos)
    (hkey : lookup_key pos (Sum.inl "5") = some a) :
    press_button [(name, teach_commit_map st)] name d hold rh
      = ([MoveEvent.move (teach_commit_map st) 1000], Except.error ()) ∧
    (press_button saved name d hold rh).2 = Except.ok true := by
  constructor
  · simp [press_button, lookup_name, press_position_map, lookup_teach_commit]
  · simp [press_button, hlook, press_position_map, hkey]

/-- Witness for C10: a taught position with angles 90 crashes after the
hover move; the same position loaded with string keys presses fine. -/
theorem c10_string_key_requirement_witness :
    press_button [("q", teach_commit_map ⟨fun _ => 90, 1⟩)] "q" 1 2 true
      = ([MoveEvent.move (teach_commit_map ⟨fun _ => 90, 1⟩) 1000],
         Except.error ()) ∧
    (press_button [("q", [(Sum.inl "5", (90 : ℚ))])] "q" 1 2 true).2
      = Except.ok true :=
  c10_string_key_requirement ⟨fun _ => 90, 1⟩ "q" 1 2 true
    [("q", [(Sum.inl "5", (90 : ℚ))])] [(Sum.inl "5", (90 : ℚ))] 90 rfl rfl

/-! Helper lemmas about the position store round trip. -/

theorem store_key_fix_fixed (am : AngleMapL) :
    (am.map store_key_fix).map store_key_fix = am.map store_key_fix := by
  induction am with
  | nil => rfl
  | cons q rest ih => simp [store_key_fix, servo_key_str, ih]

theorem store_key_fix_id (am : AngleMapL) (h : ∀ q ∈ am, q.1.isLeft) :
    am.map store_key_fix = am := by
  induction am with
  | nil => rfl
  | cons q rest ih =>
      rcases q with ⟨k, v⟩
      have hq := h (k, v) (by simp)
      obtain ⟨s, hs⟩ : ∃ s, k = Sum.inl s := by
        cases hkk : k with
        | inl s => exact ⟨s, rfl⟩
        | inr z => rw [hkk] at hq; simp [Sum.isLeft] at hq
      subst hs
      simp [store_key_fix, servo_key_str,
        ih (fun x hx => h x (by simp [hx]))]

theorem store_round_trip_id (m : List (String × AngleMapL)) :
    all_string_keys m → store_round_trip m = m := by
  induction m with
  | nil => intro _; rfl
  | cons p rest ih =>
      intro hall
      have h1 : p.2.map store_key_fix = p.2 :=
        store_key_fix_id p.2 (hall p (by simp))
      have h2 : store_round_trip rest = rest :=
        ih (fun x hx => hall x (by simp [hx]))
      show (p.1, p.2.map store_key_fix) :: store_round_trip rest = p :: rest
      rw [h1, h2]

theorem store_round_trip_idem (m : List (String × AngleMapL)) :
    store_round_trip (store_round_trip m) = store_round_trip m := by
  induction m with
  | nil => rfl
  | cons p rest ih =>
      show (p.1, (p.2.map store_key_fix).map store_key_fix)
          :: store_round_trip (store_round_trip rest)
        = (p.1, p.2.map store_key_fix) :: store_round_trip rest
      rw [store_key_fix_fixed, ih]

/-- Counterexample to claim C7: the round trip is not the identity on
mappings with integer servo keys — a position saved with integer key 5
loads back with the string key `"5"`, a different mapping. -/
theorem c7_int_keys_cex :
    store_round_trip [("p", [(Sum.inr 5, (90 : ℚ))])]
      = [("p", [(Sum.inl "5", (90 : ℚ))])] ∧
    store_round_trip [("p", [(Sum.inr 5, (90 : ℚ))])]
      ≠ [("p", [(Sum.inr 5, (90 : ℚ))])] := by
  constructor
  · show [("p", [(Sum.inl (servo_key_str (Sum.inr 5)), (90 : ℚ))])] = _
    rw [show servo_key_str (Sum.inr 5) = "5" from rfl]
  · intro hcontra
    have h1 : store_round_trip [("p", [(Sum.inr 5, (90 : ℚ))])]
        = [("p", [(Sum.inl "5", (90 : ℚ))])] := by
      show [("p", [(Sum.inl (servo_key_str (Sum.inr 5)), (90 : ℚ))])] = _
      rw [show servo_key_str (Sum.inr 5) = "5" from rfl]
    rw [h1] at hcontra
    simp at hcontra

/-- Claim C7 as amended: the save/load round trip of the position store is
the identity exactly on mappings whose servo keys are all strings (as
`json.load` produces); integer servo keys come back as their decimal
strings; and save-after-load is idempotent — round-tripping a
round-tripped store changes nothing. -/
theorem c7_round_trip (m : List (String × AngleMapL)) :
    (all_string_keys m → store_round_trip m = m) ∧
    store_round_trip (store_round_trip m) = store_round_trip m :=
  ⟨store_round_trip_id m, store_round_trip_idem m⟩

/-- Witness for C7 on a one-position store with string servo keys. -/
theorem c7_round_trip_witness :
    store_round_trip [("p", [(Sum.inl "5", (90 : ℚ))])]
      = [("p", [(Sum.inl "5", (90 : ℚ))])] :=
  (c7_round_trip [("p", [(Sum.inl "5", (90 : ℚ))])]).1
    (by intro p hp q hq; simp at hp; rw [hp] at hq; simp at hq; rw [hq]; rfl)


end LeArm
